import Mathlib

/- Verification of the JumpData burst-analysis core: the baseline computation,
window resolution and burst sums of analyze_word, the trend-aware task planner
of run_analysis, the composite-key upsert of save_analysis_to_csv, and the
start_analysis run-state guard, modelled from the Python source.  Instants are
minutes since an arbitrary epoch (Int); counts and the baseline are rationals,
so the float mean and the clamped differences are exact. -/

namespace JumpData

/-- One time-bucketed count from the fetched series: from_date is the bucket
start in minutes, count the observed post count. -/
structure YPoint where
  from_date : Int
  count : ℚ
deriving DecidableEq, Repr

/-- Minimum of a list of instants, the pandas min over a datetime column. -/
def listMin : List Int → Option Int
  | [] => none
  | a :: t =>
    match listMin t with
    | none => some a
    | some m => some (min a m)

/-- Maximum of a list of instants, the pandas max over a datetime column. -/
def listMax : List Int → Option Int
  | [] => none
  | a :: t =>
    match listMax t with
    | none => some a
    | some m => some (max a m)

/-- The four reference offsets before the reference instant R:
60, 45, 30 and 15 minutes prior (reference_times in analyze_word). -/
def reference_times (R : Int) : List Int := [R - 60, R - 45, R - 30, R - 15]

/-- Counts collected at the reference offsets: for each offset, the count of
the first point whose bucket start equals it exactly (reference_counts). -/
def reference_counts (pts : List YPoint) (R : Int) : List ℚ :=
  (reference_times R).filterMap fun t =>
    (pts.find? fun p => p.from_date == t).map (·.count)

/-- The baseline: arithmetic mean of the collected counts, 0 when none of the
four offsets matched (reference_count in analyze_word). -/
def reference_count (pts : List YPoint) (R : Int) : ℚ :=
  let cs := reference_counts pts R
  if cs = [] then 0 else cs.sum / cs.length

/-- The tail: points at or after the reference instant (df_sum_calculation). -/
def sum_calculation (pts : List YPoint) (R : Int) : List YPoint :=
  pts.filter fun p => decide (R ≤ p.from_date)

/-- Earliest bucket at or after R whose count dropped to or below the baseline
(natural_sum_end_datetime). -/
def natural_sum_end (pts : List YPoint) (R : Int) (B : ℚ) : Option Int :=
  listMin (((sum_calculation pts R).filter fun p => decide (p.count ≤ B)).map (·.from_date))

/-- Resolved end of the aggregation window (actual_sum_end_datetime): none when
the tail is empty; otherwise the never-dropped fallback extends one interval I
past the last tail point, an early drop within the first hour triggers a
re-scan of the sub-tail at or after R + 60 minutes, and a drop at or after the
one-hour mark is taken as is. -/
def actual_sum_end (pts : List YPoint) (R : Int) (B : ℚ) (I : Int) : Option Int :=
  if sum_calculation pts R = [] then none
  else
    match natural_sum_end pts R B, listMax ((sum_calculation pts R).map (·.from_date)) with
    | none, some M => some (M + I)
    | some d, some M =>
      if d < R + 60 then
        if ((sum_calculation pts R).filter fun p => decide (R + 60 ≤ p.from_date)) = [] then
          some (M + I)
        else
          match listMin (((((sum_calculation pts R).filter fun p =>
              decide (R + 60 ≤ p.from_date)).filter fun p =>
                decide (p.count ≤ B))).map (·.from_date)) with
          | some m => some m
          | none => some (M + I)
      else some d
    | _, none => none

/-- Excess over the baseline clamped at zero, the per-point summand of both
burst sums (max(0, count - reference_count)). -/
def excess (B : ℚ) (p : YPoint) : ℚ := max 0 (p.count - B)

/-- Tail points with bucket start before R plus one hour (df_one_hour_range). -/
def one_hour_range (pts : List YPoint) (R : Int) : List YPoint :=
  (sum_calculation pts R).filter fun p => decide (p.from_date < R + 60)

/-- The one-hour burst sum (one_hour_sum_value in analyze_word). -/
def one_hour_sum_value (pts : List YPoint) (R : Int) (B : ℚ) : ℚ :=
  ((one_hour_range pts R).map (excess B)).sum

/-- Tail points before the resolved window end (df_sum_range); empty when the
end is unresolved. -/
def sum_range (pts : List YPoint) (R : Int) (B : ℚ) (I : Int) : List YPoint :=
  match actual_sum_end pts R B I with
  | some e => (sum_calculation pts R).filter fun p => decide (p.from_date < e)
  | none => []

/-- The full-window burst sum (sum_value in analyze_word). -/
def sum_value (pts : List YPoint) (R : Int) (B : ℚ) (I : Int) : ℚ :=
  ((sum_range pts R B I).map (excess B)).sum

/-- Tail points between the one-hour mark and the resolved end
(df_after_one_hour_range); empty unless the end lies past the one-hour mark. -/
def after_one_hour_range (pts : List YPoint) (R : Int) (B : ℚ) (I : Int) : List YPoint :=
  match actual_sum_end pts R B I with
  | some e =>
    if R + 60 < e then
      (sum_calculation pts R).filter fun p =>
        decide (R + 60 ≤ p.from_date ∧ p.from_date < e)
    else []
  | none => []

/-- Chart series: every fetched point is emitted, with no baseline filter
(the chart_data loop of analyze_word). -/
def chart_data (pts : List YPoint) : List YPoint := pts

/-- Display points of the one-hour range: only counts strictly above the
baseline are kept (one_hour_range_data). -/
def one_hour_range_data (pts : List YPoint) (R : Int) (B : ℚ) : List YPoint :=
  (one_hour_range pts R).filter fun p => decide (B < p.count)

/-- Display points of the after-one-hour range: only counts strictly above the
baseline are kept (after_one_hour_range_data). -/
def after_one_hour_range_data (pts : List YPoint) (R : Int) (B : ℚ) (I : Int) : List YPoint :=
  (after_one_hour_range pts R B I).filter fun p => decide (B < p.count)

/-- Spec reading of the baseline population: exactly those points whose bucket
start equals one of the four reference offsets. -/
def baseline_points_spec (pts : List YPoint) (R : Int) : List YPoint :=
  pts.filter fun p => decide (p.from_date ∈ reference_times R)

/-- One work submitted to run_analysis: display name, base query string and
the trend-only flag (isTrend). -/
structure Work where
  name : String
  query : String
  isTrend : Bool := false
deriving DecidableEq, Repr

/-- One entry of trend_words_data: the trend word, the work it belongs to and
its rank. -/
structure TrendDatum where
  word : String
  workName : String
  rank : String := ""
deriving DecidableEq, Repr

/-- Python str.strip modelled on the character list: leading and trailing
whitespace removed. -/
def pstrip (s : String) : String :=
  ⟨((s.data.dropWhile Char.isWhitespace).reverse.dropWhile Char.isWhitespace).reverse⟩

/-- The trend words collected for a work name (trend_map in run_analysis):
entries with a non-empty work name and a non-blank word, stripped, grouped per
work name in input order. -/
def trend_map (tds : List TrendDatum) (name : String) : List String :=
  (tds.filter fun t =>
    decide (t.workName = name ∧ t.workName ≠ "" ∧ pstrip t.word ≠ "")).map (pstrip ·.word)

/-- The original query elements of a work, defaulting to the base query as a
single element when absent (original_queries.get). -/
def original_elements (origs : List (String × List String)) (w : Work) : List String :=
  match origs.find? fun kv => kv.1 == w.name with
  | some kv => kv.2
  | none => [w.query]

/-- Trend words of a work not already among its original query elements
(new_trends in run_analysis). -/
def new_trends_of (tds : List TrendDatum) (origs : List (String × List String))
    (w : Work) : List String :=
  (trend_map tds w.name).filter fun t => decide (t ∉ original_elements origs w)

/-- Number of analysis tasks planned for one work, the summand of the
total_tasks precomputation in run_analysis. -/
def tasks_for_work (tds : List TrendDatum) (origs : List (String × List String))
    (w : Work) : Nat :=
  if w.isTrend then 1
  else
    if trend_map tds w.name ≠ [] then
      if new_trends_of tds origs w ≠ [] then 2 + (trend_map tds w.name).length
      else 1 + (trend_map tds w.name).length
    else 1

/-- The precomputed total task count of run_analysis: the per-work counts
accumulated over the work list. -/
def total_tasks (tds : List TrendDatum) (origs : List (String × List String)) :
    List Work → Nat
  | [] => 0
  | w :: ws => tasks_for_work tds origs w + total_tasks tds origs ws

/-- Space-separated concatenation of query elements (the str.join inside
build_query_from_list). -/
def joinSpace : List String → String
  | [] => ""
  | [q] => q
  | q :: rest => q ++ " " ++ joinSpace rest

/-- Query string built from a list of elements (build_query_from_list in
utils.py): empty for no elements, the element itself for one, and the
space-joined elements wrapped in parentheses otherwise. -/
def build_query_from_list (ql : List String) : String :=
  match ql with
  | [] => ""
  | [q] => q
  | _ => "(" ++ joinSpace ql ++ ")"

/-- One planned analysis with its classification tags, as appended to
summary_data by run_analysis.  Absent dictionary keys read with a False or
empty default downstream are modelled by the default field values. -/
structure PlannedTask where
  name : String
  query : String
  isTrend : Bool := false
  withTrendWord : Bool := false
  trendWords : List String := []
  isTrendIndividual : Bool := false
deriving DecidableEq, Repr

/-- The analyses executed for one work in loop order, with their tags
(the per-work body of the run_analysis loop). -/
def plan_for_work (tds : List TrendDatum) (origs : List (String × List String))
    (w : Work) : List PlannedTask :=
  if w.isTrend then [{ name := w.name, query := w.query, isTrend := true }]
  else
    if trend_map tds w.name ≠ [] then
      (if new_trends_of tds origs w ≠ [] then
        [{ name := w.name, query := build_query_from_list (original_elements origs w) },
         { name := w.name, query := w.query, withTrendWord := true,
           trendWords := new_trends_of tds origs w }]
      else
        [{ name := w.name, query := w.query, withTrendWord := true,
           trendWords := trend_map tds w.name }])
      ++ (trend_map tds w.name).map fun t =>
        { name := w.name, query := build_query_from_list [t], withTrendWord := true,
          trendWords := [t], isTrendIndividual := true }
    else [{ name := w.name, query := w.query }]

/-- One analysis result as consumed by save_analysis_to_csv: the metric fields
are None exactly when the fetch returned no data. -/
structure AnalysisRecord where
  name : String
  query : String
  refCount : Option ℚ
  oneHourSum : Option ℚ
  totalSum : Option ℚ
  endTime : String
  isTrend : Bool := false
  withTrendWord : Bool := false
  trendWords : List String := []
  isTrendIndividual : Bool := false
deriving DecidableEq, Repr

/-- One persisted row of the work-summary table, keyed by
(issue number, work name, with-trend flag). -/
structure WorkRow where
  issue : Int
  name : String
  hasTrend : Bool
  query : String
  reference : ℚ
  oneHour : ℚ
  total : ℚ
  endTime : String
deriving DecidableEq, Repr

/-- One persisted row of the trend-summary table, keyed by
(issue number, work name). -/
structure TrendRow where
  issue : Int
  name : String
  word : String
  rank : String
  reference : ℚ
  oneHour : ℚ
  total : ℚ
  endTime : String
deriving DecidableEq, Repr

/-- The composite key of a work-summary row. -/
def workKey (r : WorkRow) : Int × String × Bool := (r.issue, r.name, r.hasTrend)

/-- The composite key of a trend-summary row. -/
def trendKey (r : TrendRow) : Int × String := (r.issue, r.name)

/-- The ascending sort key of the work-summary table: issue number, then work
name, then the with-trend flag, lexicographically. -/
def workSortKey (r : WorkRow) : Int ×ₗ String ×ₗ Bool :=
  toLex (r.issue, toLex (r.name, r.hasTrend))

/-- The ascending sort key of the trend-summary table: issue number then work
name, lexicographically. -/
def trendSortKey (r : TrendRow) : Int ×ₗ String := toLex (r.issue, r.name)

/-- Sort order of work-summary rows. -/
def workLE (a b : WorkRow) : Prop := workSortKey a ≤ workSortKey b

/-- Sort order of trend-summary rows. -/
def trendLE (a b : TrendRow) : Prop := trendSortKey a ≤ trendSortKey b

instance : DecidableRel workLE := fun a b =>
  inferInstanceAs (Decidable (workSortKey a ≤ workSortKey b))

instance : DecidableRel trendLE := fun a b =>
  inferInstanceAs (Decidable (trendSortKey a ≤ trendSortKey b))

instance : IsTotal WorkRow workLE :=
  ⟨fun a b => le_total (workSortKey a) (workSortKey b)⟩

instance : IsTrans WorkRow workLE :=
  ⟨fun _ _ _ h h2 => le_trans h h2⟩

instance : IsTotal TrendRow trendLE :=
  ⟨fun a b => le_total (trendSortKey a) (trendSortKey b)⟩

instance : IsTrans TrendRow trendLE :=
  ⟨fun _ _ _ h h2 => le_trans h h2⟩

/-- The new work-summary rows built from a result list: trend-only and
individual-trend results are skipped, None metrics become 0. -/
def work_rows (results : List AnalysisRecord) (issue : Int) : List WorkRow :=
  (results.filter fun r =>
    decide (r.isTrend = false ∧ r.isTrendIndividual = false)).map fun r =>
    { issue := issue, name := r.name, hasTrend := r.withTrendWord, query := r.query,
      reference := r.refCount.getD 0, oneHour := r.oneHourSum.getD 0,
      total := r.totalSum.getD 0, endTime := r.endTime }

/-- Rank looked up in the trend metadata for a work and word (trend_rank_map):
the rank of the first usable entry with this work name and word, or empty. -/
def rank_for (tds : List TrendDatum) (name word : String) : String :=
  match tds.find? fun t =>
      decide (pstrip t.word ≠ "" ∧ pstrip t.workName ≠ "" ∧ t.workName = name ∧ t.word = word) with
  | some t => t.rank
  | none => ""

/-- The new trend-summary rows built from a result list: only individual-trend
results carrying exactly one trend word are kept. -/
def trend_rows (results : List AnalysisRecord) (issue : Int)
    (tds : List TrendDatum) : List TrendRow :=
  (results.filter fun r =>
    decide (r.isTrendIndividual = true ∧ r.trendWords.length = 1)).map fun r =>
    { issue := issue, name := r.name, word := r.trendWords.headI,
      rank := rank_for tds r.name r.trendWords.headI,
      reference := r.refCount.getD 0, oneHour := r.oneHourSum.getD 0,
      total := r.totalSum.getD 0, endTime := r.endTime }

/-- Composite-key replace followed by the stable ascending sort: the shared
shape of both table merges in save_analysis_to_csv. -/
def upsert {α κ : Type} [DecidableEq κ] (key : α → κ) (r : α → α → Prop)
    [DecidableRel r] (newRows existing : List α) : List α :=
  List.insertionSort r
    ((existing.filter fun x => decide (key x ∉ newRows.map key)) ++ newRows)

/-- The two persisted tables. -/
structure Store where
  workTable : List WorkRow
  trendTable : List TrendRow
deriving DecidableEq, Repr

/-- The pure effect of save_analysis_to_csv on the two tables: the
work-summary table is always rewritten; the trend-summary table only when
trend metadata was supplied and at least one trend row was built. -/
def save_analysis_to_csv (results : List AnalysisRecord) (issue : Int)
    (tds : List TrendDatum) (s : Store) : Store :=
  if tds ≠ [] ∧ trend_rows results issue tds ≠ [] then
    { workTable := upsert workKey workLE (work_rows results issue) s.workTable,
      trendTable := upsert trendKey trendLE (trend_rows results issue tds) s.trendTable }
  else
    { workTable := upsert workKey workLE (work_rows results issue) s.workTable,
      trendTable := s.trendTable }

/-- The externally visible run state (analysis_progress in app.py). -/
structure RunProgress where
  current : Nat
  total : Nat
  status : String
  message : String
deriving DecidableEq, Repr

/-- The start_analysis guard in app.py: a request while a run is active is
rejected (false, the HTTP 400 already-running response) and leaves the state
untouched; otherwise the state is reset and the request accepted. -/
def start_analysis (p : RunProgress) : RunProgress × Bool :=
  if p.status = "running" then (p, false)
  else ({ current := 0, total := 0, status := "running", message := "初期化中..." }, true)

/-- Concrete series: counts 2, 4, 6, 8 at the four offsets before instant 0,
a burst at 0 and 15, an early dip at 30, a rebound at 60 and a drop at 75. -/
def exSeries : List YPoint :=
  [⟨-60, 2⟩, ⟨-45, 4⟩, ⟨-30, 6⟩, ⟨-15, 8⟩, ⟨0, 20⟩, ⟨15, 12⟩, ⟨30, 1⟩, ⟨60, 9⟩, ⟨75, 3⟩]

/-- Concrete work for the planner scenario: base query embedding its trends. -/
def exWorkA : Work := { name := "A", query := "(A X)" }

/-- Concrete trend metadata for the planner scenario: words A and X for work
A, of which only X is new relative to the original elements. -/
def exTrendData : List TrendDatum :=
  [{ word := "A", workName := "A", rank := "1" },
   { word := "X", workName := "A", rank := "2" }]

/-- Concrete original query elements for the planner scenario. -/
def exOriginals : List (String × List String) := [("A", ["A"])]

/-- A pre-existing work-summary row whose key collides with no new row. -/
def exOldRow : WorkRow :=
  { issue := 1, name := "B", hasTrend := false, query := "B",
    reference := 1, oneHour := 2, total := 3, endTime := "t" }

/-- A pre-existing trend-summary row whose key collides with no new row. -/
def exOldTrendRow : TrendRow :=
  { issue := 1, name := "B", word := "w", rank := "1",
    reference := 1, oneHour := 2, total := 3, endTime := "t" }

/-- A store holding one historical row in each table. -/
def exStore : Store := { workTable := [exOldRow], trendTable := [exOldTrendRow] }

/-- A completed plain-work analysis record. -/
def exRecord : AnalysisRecord :=
  { name := "A", query := "A", refCount := some 5, oneHourSum := some 22,
    totalSum := some 26, endTime := "e" }

/-- A completed individual-trend analysis record with one trend word. -/
def exIndivRecord : AnalysisRecord :=
  { name := "A", query := "X", refCount := some 1, oneHourSum := some 2,
    totalSum := some 3, endTime := "e", withTrendWord := true,
    trendWords := ["X"], isTrendIndividual := true }

/-- A run state captured mid-run. -/
def exProgress : RunProgress :=
  { current := 3, total := 5, status := "running", message := "m" }

theorem listMin_mem : ∀ {l : List Int} {m : Int}, listMin l = some m → m ∈ l := by
  intro l
  induction l with
  | nil => intro m h; simp [listMin] at h
  | cons a t ih =>
    intro m h
    unfold listMin at h
    cases ht : listMin t with
    | none => rw [ht] at h; simp at h; simp [h]
    | some k =>
      rw [ht] at h
      simp at h
      rcases min_choice a k with hc | hc <;> rw [hc] at h
      · simp [h]
      · exact h ▸ List.mem_cons_of_mem a (ih ht)

theorem listMin_le : ∀ {l : List Int} {m : Int}, listMin l = some m → ∀ x ∈ l, m ≤ x := by
  intro l
  induction l with
  | nil => intro m h; simp [listMin] at h
  | cons a t ih =>
    intro m h x hx
    unfold listMin at h
    cases ht : listMin t with
    | none =>
      rw [ht] at h
      simp at h
      have : t = [] := by
        cases t with
        | nil => rfl
        | cons b u => cases hu : listMin u <;> simp [listMin, hu] at ht
      subst this
      simp at hx
      simp [h, hx]
    | some k =>
      rw [ht] at h
      simp at h
      rcases List.mem_cons.mp hx with rfl | hx2
      · exact h ▸ min_le_left _ _
      · exact le_trans (h ▸ min_le_right _ _) (ih ht x hx2)

theorem listMax_mem : ∀ {l : List Int} {m : Int}, listMax l = some m → m ∈ l := by
  intro l
  induction l with
  | nil => intro m h; simp [listMax] at h
  | cons a t ih =>
    intro m h
    unfold listMax at h
    cases ht : listMax t with
    | none => rw [ht] at h; simp at h; simp [h]
    | some k =>
      rw [ht] at h
      simp at h
      rcases max_choice a k with hc | hc <;> rw [hc] at h
      · simp [h]
      · exact h ▸ List.mem_cons_of_mem a (ih ht)

theorem listMax_ge : ∀ {l : List Int} {m : Int}, listMax l = some m → ∀ x ∈ l, x ≤ m := by
  intro l
  induction l with
  | nil => intro m h; simp [listMax] at h
  | cons a t ih =>
    intro m h x hx
    unfold listMax at h
    cases ht : listMax t with
    | none =>
      rw [ht] at h
      simp at h
      have : t = [] := by
        cases t with
        | nil => rfl
        | cons b u => cases hu : listMax u <;> simp [listMax, hu] at ht
      subst this
      simp at hx
      simp [h, hx]
    | some k =>
      rw [ht] at h
      simp at h
      rcases List.mem_cons.mp hx with rfl | hx2
      · exact h ▸ le_max_left _ _
      · exact le_trans (ih ht x hx2) (h ▸ le_max_right _ _)

theorem listMax_isSome : ∀ {l : List Int}, l ≠ [] → ∃ m, listMax l = some m := by
  intro l hl
  cases l with
  | nil => exact absurd rfl hl
  | cons a t => unfold listMax; cases listMax t <;> exact ⟨_, rfl⟩

/-- C7: for a non-empty fetched series in which no point lies at or after the
reference instant, the resolved window end is the no-data marker (none) and
both the one-hour sum and the full-window sum are 0. -/
theorem empty_tail_no_window (pts : List YPoint) (R : Int) (B : ℚ) (I : Int)
    (hne : pts ≠ []) (htail : sum_calculation pts R = []) :
    actual_sum_end pts R B I = none ∧
    one_hour_sum_value pts R B = 0 ∧
    sum_value pts R B I = 0 := by
  have h1 : actual_sum_end pts R B I = none := by
    unfold actual_sum_end
    rw [if_pos htail]
  refine ⟨h1, ?_, ?_⟩
  · unfold one_hour_sum_value one_hour_range
    rw [htail]
    rfl
  · unfold sum_value sum_range
    rw [h1]
    rfl

/-- Witness for C7: the concrete series seen from reference instant 100 has an
empty tail, an unresolved end and zero sums. -/
theorem empty_tail_no_window_witness :
    actual_sum_end exSeries 100 5 15 = none ∧
    one_hour_sum_value exSeries 100 5 = 0 ∧
    sum_value exSeries 100 5 15 = 0 :=
  empty_tail_no_window exSeries 100 5 15 (by decide) (by decide)

/-- C9: a start request issued while the run state is running is rejected and
leaves current, total and message of the in-flight run untouched. -/
theorem concurrent_start_rejected (p : RunProgress) (h : p.status = "running") :
    start_analysis p = (p, false) ∧
    (start_analysis p).1.current = p.current ∧
    (start_analysis p).1.total = p.total ∧
    (start_analysis p).1.message = p.message := by
  unfold start_analysis
  rw [if_pos h]
  exact ⟨rfl, rfl, rfl, rfl⟩

/-- Witness for C9 at a concrete mid-run state. -/
theorem concurrent_start_rejected_witness :
    start_analysis exProgress = (exProgress, false) ∧
    (start_analysis exProgress).1.current = exProgress.current ∧
    (start_analysis exProgress).1.total = exProgress.total ∧
    (start_analysis exProgress).1.message = exProgress.message :=
  concurrent_start_rejected exProgress (by decide)

theorem reference_count_exSeries : reference_count exSeries 0 = 5 := by
  have h : reference_counts exSeries 0 = [2, 4, 6, 8] := by decide
  unfold reference_count
  rw [h]
  rw [if_neg (by simp)]
  norm_num

/-- C6 counterexample: the chart series of the concrete analysis keeps the
point at instant 30 although its count 1 does not exceed the baseline 5, so
chart_data is not filtered to counts above the baseline. -/
theorem chart_data_unfiltered_counterexample :
    (⟨30, 1⟩ : YPoint) ∈ chart_data exSeries ∧
    reference_count exSeries 0 = 5 ∧
    ¬ reference_count exSeries 0 < (⟨30, 1⟩ : YPoint).count := by
  refine ⟨by decide, reference_count_exSeries, ?_⟩
  rw [reference_count_exSeries]
  norm_num

/-- C6 amended: for every non-empty fetched series the two range display
sequences carry only points whose count strictly exceeds the baseline, while
the chart series carries every fetched point unfiltered. -/
theorem display_data_filtering (pts : List YPoint) (R : Int) (B : ℚ) (I : Int)
    (hne : pts ≠ []) :
    (∀ p ∈ one_hour_range_data pts R B, B < p.count) ∧
    (∀ p ∈ after_one_hour_range_data pts R B I, B < p.count) ∧
    chart_data pts = pts := by
  refine ⟨?_, ?_, rfl⟩
  · intro p hp
    unfold one_hour_range_data at hp
    exact of_decide_eq_true (List.mem_filter.mp hp).2
  · intro p hp
    unfold after_one_hour_range_data at hp
    exact of_decide_eq_true (List.mem_filter.mp hp).2

/-- Witness for C6 amended on the concrete series: the displayed burst point
at instant 0 exceeds the baseline, and the chart keeps the whole series. -/
theorem display_data_filtering_witness :
    (5 : ℚ) < (⟨0, (20 : ℚ)⟩ : YPoint).count ∧ chart_data exSeries = exSeries := by
  have h := display_data_filtering exSeries 0 5 15 (by decide)
  exact ⟨h.1 ⟨0, 20⟩ (by decide), h.2.2⟩

/-- C4: for a non-trend-only work, all-new trend words give 2 + k tasks,
all-known trend words give 1 + k tasks, no trend words give 1 task, and the
precomputed total is the sum of the per-work counts. -/
theorem planner_count_invariant (tds : List TrendDatum)
    (origs : List (String × List String)) (w : Work) (hw : w.isTrend = false) :
    (trend_map tds w.name ≠ [] →
      (∀ t ∈ trend_map tds w.name, t ∉ original_elements origs w) →
      tasks_for_work tds origs w = 2 + (trend_map tds w.name).length) ∧
    (trend_map tds w.name ≠ [] →
      (∀ t ∈ trend_map tds w.name, t ∈ original_elements origs w) →
      tasks_for_work tds origs w = 1 + (trend_map tds w.name).length) ∧
    (trend_map tds w.name = [] → tasks_for_work tds origs w = 1) ∧
    (∀ works : List Work,
      total_tasks tds origs works = (works.map (tasks_for_work tds origs)).sum) := by
  refine ⟨?_, ?_, ?_, ?_⟩
  · intro h1 h2
    have hnew : new_trends_of tds origs w = trend_map tds w.name := by
      unfold new_trends_of
      exact List.filter_eq_self.mpr fun t ht => decide_eq_true (h2 t ht)
    unfold tasks_for_work
    rw [hw]
    simp only [Bool.false_eq_true, if_false, hnew]
    rw [if_pos h1, if_pos h1]
  · intro h1 h2
    have hnew : new_trends_of tds origs w = [] := by
      unfold new_trends_of
      apply List.filter_eq_nil_iff.mpr
      intro t ht
      simp only [decide_eq_true_eq, Decidable.not_not]
      exact h2 t ht
    unfold tasks_for_work
    rw [hw]
    simp only [Bool.false_eq_true, if_false, hnew]
    rw [if_pos h1, if_neg (by simp)]
  · intro h1
    unfold tasks_for_work
    rw [hw]
    simp only [Bool.false_eq_true, if_false]
    rw [if_neg (by simp [h1])]
  · intro works
    induction works with
    | nil => rfl
    | cons w2 ws ih => simp [total_tasks, ih]

/-- Witness for C4: the all-new case gives 4 tasks for two trend words, the
empty case gives 1 task, and the total over a one-work list is the sum. -/
theorem planner_count_invariant_witness :
    tasks_for_work exTrendData [] exWorkA = 2 + (trend_map exTrendData "A").length ∧
    tasks_for_work exTrendData exOriginals { name := "B", query := "B" } = 1 ∧
    total_tasks exTrendData exOriginals [exWorkA] =
      ([exWorkA].map (tasks_for_work exTrendData exOriginals)).sum := by
  have h1 := planner_count_invariant exTrendData [] exWorkA (by decide)
  have h2 := planner_count_invariant exTrendData exOriginals
    { name := "B", query := "B" } (by decide)
  have h3 := planner_count_invariant exTrendData exOriginals exWorkA (by decide)
  exact ⟨h1.1 (by decide) (by decide), h2.2.2.1 (by decide), h3.2.2.2 [exWorkA]⟩

theorem map_from_date_ne_nil {pts : List YPoint} {R : Int}
    (h : sum_calculation pts R ≠ []) :
    (sum_calculation pts R).map (·.from_date) ≠ [] := by
  simpa using h

/-- C1: with a non-empty tail whose last bucket start is M, the resolved end
follows the spec cases: never dropped gives M plus one interval; an earliest
drop at or after the one-hour mark becomes the end itself; an earliest drop
before the one-hour mark yields the minimum drop at or after the one-hour
mark, or M plus one interval when no such point exists. -/
theorem window_resolution_cases (pts : List YPoint) (R : Int) (B : ℚ) (I M : Int)
    (hM : listMax ((sum_calculation pts R).map (·.from_date)) = some M) :
    ((∀ p ∈ sum_calculation pts R, B < p.count) →
      actual_sum_end pts R B I = some (M + I)) ∧
    (∀ d, natural_sum_end pts R B = some d → R + 60 ≤ d →
      actual_sum_end pts R B I = some d) ∧
    (∀ d, natural_sum_end pts R B = some d → d < R + 60 →
      actual_sum_end pts R B I =
        match listMin (((sum_calculation pts R).filter fun p =>
            decide (R + 60 ≤ p.from_date ∧ p.count ≤ B)).map (·.from_date)) with
        | some m => some m
        | none => some (M + I)) := by
  have hne : sum_calculation pts R ≠ [] := by
    intro h0
    rw [h0] at hM
    simp [listMax] at hM
  have hcomb : (((sum_calculation pts R).filter fun p =>
        decide (R + 60 ≤ p.from_date)).filter fun p => decide (p.count ≤ B)) =
      ((sum_calculation pts R).filter fun p =>
        decide (R + 60 ≤ p.from_date ∧ p.count ≤ B)) := by
    rw [List.filter_filter]
    apply List.filter_congr
    intro p hp
    simp [Bool.and_comm]
  refine ⟨?_, ?_, ?_⟩
  · intro hall
    have hfilter : ((sum_calculation pts R).filter fun p => decide (p.count ≤ B)) = [] :=
      List.filter_eq_nil_iff.mpr fun p hp => by
        simp only [decide_eq_true_eq]
        exact not_le.mpr (hall p hp)
    have hnat : natural_sum_end pts R B = none := by
      unfold natural_sum_end
      rw [hfilter]
      rfl
    unfold actual_sum_end
    rw [if_neg hne, hnat, hM]
  · intro d hd hge
    have h2 : ¬ d < R + 60 := not_lt.mpr hge
    unfold actual_sum_end
    rw [if_neg hne, hd, hM]
    simp [h2]
  · intro d hd hlt
    unfold actual_sum_end
    rw [if_neg hne, hd, hM]
    simp only [hlt, if_true]
    by_cases hafter :
        ((sum_calculation pts R).filter fun p => decide (R + 60 ≤ p.from_date)) = []
    · rw [if_pos hafter, ← hcomb, hafter]
      rfl
    · rw [if_neg hafter, hcomb]

/-- Witness for C1: on the concrete series the early dip at instant 30 is
skipped and the window ends at the drop at instant 75. -/
theorem window_resolution_cases_witness :
    actual_sum_end exSeries 0 5 15 = some 75 := by
  have h := window_resolution_cases exSeries 0 5 15 75 (by decide)
  have h3 := h.2.2 30 (by decide) (by decide)
  rw [h3]
  decide

theorem excess_nonneg (B : ℚ) (p : YPoint) : 0 ≤ excess B p := le_max_left 0 _

theorem sum_excess_nonneg (B : ℚ) (l : List YPoint) : 0 ≤ (l.map (excess B)).sum := by
  apply List.sum_nonneg
  intro x hx
  rcases List.mem_map.mp hx with ⟨p, _, rfl⟩
  exact excess_nonneg B p

theorem sum_excess_filter_mono (B : ℚ) (l : List YPoint) (p q : YPoint → Bool)
    (h : ∀ x ∈ l, p x = true → q x = true) :
    ((l.filter p).map (excess B)).sum ≤ ((l.filter q).map (excess B)).sum := by
  induction l with
  | nil => simp
  | cons a t ih =>
    have iht := ih fun x hx hp => h x (List.mem_cons_of_mem a hx) hp
    by_cases hpa : p a = true
    · have hqa := h a (List.mem_cons_self a t) hpa
      rw [List.filter_cons_of_pos hpa, List.filter_cons_of_pos hqa]
      simp only [List.map_cons, List.sum_cons]
      exact add_le_add_left iht _
    · rw [List.filter_cons_of_neg hpa]
      by_cases hqa : q a = true
      · rw [List.filter_cons_of_pos hqa]
        simp only [List.map_cons, List.sum_cons]
        exact le_trans iht (le_add_of_nonneg_left (excess_nonneg B a))
      · rw [List.filter_cons_of_neg hqa]
        exact iht

/-- Every resolved window end is either the fallback one interval past the
last tail bucket, or lies at or after the one-hour mark. -/
theorem actual_sum_end_lower (pts : List YPoint) (R : Int) (B : ℚ) (I M : Int)
    (hM : listMax ((sum_calculation pts R).map (·.from_date)) = some M) :
    actual_sum_end pts R B I = some (M + I) ∨
    (∃ e, actual_sum_end pts R B I = some e ∧ R + 60 ≤ e) := by
  have hne : sum_calculation pts R ≠ [] := by
    intro h0
    rw [h0] at hM
    simp [listMax] at hM
  unfold actual_sum_end
  rw [if_neg hne, hM]
  cases hnat : natural_sum_end pts R B with
  | none => exact Or.inl rfl
  | some d =>
    by_cases hlt : d < R + 60
    · simp only [hlt, if_true]
      by_cases hafter :
          ((sum_calculation pts R).filter fun p => decide (R + 60 ≤ p.from_date)) = []
      · rw [if_pos hafter]
        exact Or.inl rfl
      · rw [if_neg hafter]
        cases hmin : listMin (((((sum_calculation pts R).filter fun p =>
            decide (R + 60 ≤ p.from_date)).filter fun p =>
              decide (p.count ≤ B))).map (·.from_date)) with
        | none => exact Or.inl rfl
        | some m =>
          refine Or.inr ⟨m, rfl, ?_⟩
          have hmem := listMin_mem hmin
          rcases List.mem_map.mp hmem with ⟨x, hx, rfl⟩
          have hx2 := List.mem_filter.mp (List.mem_filter.mp hx).1
          exact of_decide_eq_true hx2.2
    · simp only [hlt, if_false]
      exact Or.inr ⟨d, rfl, not_lt.mp hlt⟩

/-- C10: for a non-empty fetched series and a positive interval, both
baseline-excess burst sums are non-negative and the full-window sum is at
least the one-hour sum. -/
theorem burst_sums_ordered (pts : List YPoint) (R : Int) (B : ℚ) (I : Int)
    (hne : pts ≠ []) (hI : 0 < I) :
    0 ≤ one_hour_sum_value pts R B ∧
    0 ≤ sum_value pts R B I ∧
    one_hour_sum_value pts R B ≤ sum_value pts R B I := by
  refine ⟨sum_excess_nonneg B _, sum_excess_nonneg B _, ?_⟩
  by_cases htail : sum_calculation pts R = []
  · have h0 : one_hour_sum_value pts R B = 0 := by
      unfold one_hour_sum_value one_hour_range
      rw [htail]
      rfl
    rw [h0]
    exact sum_excess_nonneg B _
  · obtain ⟨M, hM⟩ := listMax_isSome (map_from_date_ne_nil htail)
    have key : ∀ e, actual_sum_end pts R B I = some e →
        (∀ x ∈ sum_calculation pts R,
          decide (x.from_date < R + 60) = true → decide (x.from_date < e) = true) := by
      intro e he x hx hlt
      rcases actual_sum_end_lower pts R B I M hM with hfb | ⟨e2, he2, hges⟩
      · rw [he] at hfb
        injection hfb with hfb2
        subst hfb2
        have hxle := listMax_ge hM x.from_date (List.mem_map_of_mem _ hx)
        exact decide_eq_true (lt_of_le_of_lt hxle (lt_add_of_pos_right M hI))
      · rw [he] at he2
        injection he2 with he3
        subst he3
        exact decide_eq_true (lt_of_lt_of_le (of_decide_eq_true hlt) hges)
    cases he : actual_sum_end pts R B I with
    | none =>
      rcases actual_sum_end_lower pts R B I M hM with hfb | ⟨e2, he2, _⟩
      · rw [he] at hfb; cases hfb
      · rw [he] at he2; cases he2
    | some e =>
      have hsr : sum_range pts R B I =
          (sum_calculation pts R).filter fun p => decide (p.from_date < e) := by
        unfold sum_range
        rw [he]
      unfold one_hour_sum_value one_hour_range sum_value
      rw [hsr]
      exact sum_excess_filter_mono B _ _ _ (key e he)

/-- Witness for C10 on the concrete series: sums 22 and 26, ordered. -/
theorem burst_sums_ordered_witness :
    0 ≤ one_hour_sum_value exSeries 0 5 ∧
    0 ≤ sum_value exSeries 0 5 15 ∧
    one_hour_sum_value exSeries 0 5 ≤ sum_value exSeries 0 5 15 :=
  burst_sums_ordered exSeries 0 5 15 (by decide) (by decide)

theorem reference_times_nodup (R : Int) : (reference_times R).Nodup := by
  simp [reference_times]

theorem find_some_filter_perm (t : Int) (ts : List Int) :
    ∀ (pts : List YPoint) (p₀ : YPoint),
    (pts.map (·.from_date)).Nodup → t ∉ ts →
    (pts.find? fun p => p.from_date == t) = some p₀ →
    List.Perm (pts.filter fun p => decide (p.from_date ∈ t :: ts))
      (p₀ :: pts.filter fun p => decide (p.from_date ∈ ts)) := by
  intro pts
  induction pts with
  | nil =>
    intro p₀ _ _ hf
    simp [List.find?] at hf
  | cons q rest ih =>
    intro p₀ hnd ht hf
    have hndr : (rest.map (·.from_date)).Nodup := (List.nodup_cons.mp hnd).2
    have hqnot : q.from_date ∉ rest.map (·.from_date) := (List.nodup_cons.mp hnd).1
    by_cases hq : q.from_date = t
    · have hp0 : p₀ = q := by
        rw [List.find?_cons_of_pos _ (by simp [hq])] at hf
        exact (Option.some_inj.mp hf).symm
      subst hp0
      rw [List.filter_cons_of_pos (by simp [hq]),
        List.filter_cons_of_neg (by simp [hq]; exact hq ▸ ht)]
      have hcongr : (rest.filter fun p => decide (p.from_date ∈ t :: ts)) =
          rest.filter fun p => decide (p.from_date ∈ ts) := by
        apply List.filter_congr
        intro x hx
        have hxt : x.from_date ≠ t := by
          intro hxeq
          exact hqnot (hq ▸ hxeq ▸ List.mem_map_of_mem (·.from_date) hx)
        simp [List.mem_cons, hxt]
      rw [hcongr]
    · rw [List.find?_cons_of_neg _ (by simp [hq])] at hf
      have ihr := ih p₀ hndr ht hf
      by_cases hqts : q.from_date ∈ ts
      · rw [List.filter_cons_of_pos (by simp [List.mem_cons, hqts]),
          List.filter_cons_of_pos (by simp [hqts])]
        exact List.Perm.trans (List.Perm.cons q ihr) (List.Perm.swap p₀ q _)
      · rw [List.filter_cons_of_neg (by simp [List.mem_cons, hq, hqts]),
          List.filter_cons_of_neg (by simp [hqts])]
        exact ihr

theorem filterMap_find_perm : ∀ (ts : List Int) (pts : List YPoint),
    ts.Nodup → (pts.map (·.from_date)).Nodup →
    List.Perm (ts.filterMap fun t => pts.find? fun p => p.from_date == t)
      (pts.filter fun p => decide (p.from_date ∈ ts)) := by
  intro ts
  induction ts with
  | nil =>
    intro pts _ _
    simp
  | cons t ts ih =>
    intro pts hts hnd
    have hts2 := List.nodup_cons.mp hts
    rw [List.filterMap_cons]
    cases hf : pts.find? fun p => p.from_date == t with
    | none =>
      have hnone : ∀ x ∈ pts, x.from_date ≠ t := by
        intro x hx
        have hfx := List.find?_eq_none.mp hf x hx
        simpa using hfx
      have hcongr : (pts.filter fun p => decide (p.from_date ∈ t :: ts)) =
          pts.filter fun p => decide (p.from_date ∈ ts) := by
        apply List.filter_congr
        intro x hx
        simp [List.mem_cons, hnone x hx]
      rw [hcongr]
      exact ih pts hts2.2 hnd
    | some p₀ =>
      exact List.Perm.trans (List.Perm.cons p₀ (ih pts hts2.2 hnd))
        (find_some_filter_perm t ts pts p₀ hnd hts2.1 hf).symm

theorem reference_counts_perm (pts : List YPoint) (R : Int)
    (hnd : (pts.map (·.from_date)).Nodup) :
    List.Perm (reference_counts pts R) ((baseline_points_spec pts R).map (·.count)) := by
  have h2 :=
    (filterMap_find_perm (reference_times R) pts (reference_times_nodup R) hnd).map (·.count)
  unfold reference_counts baseline_points_spec
  rw [← List.map_filterMap]
  exact h2

/-- C2: under unique bucket starts, the baseline is the arithmetic mean of
the counts of exactly the points whose bucket start equals one of the four
reference offsets, and 0 when no offset matches. -/
theorem baseline_is_mean_of_matched (pts : List YPoint) (R : Int)
    (hnd : (pts.map (·.from_date)).Nodup) :
    reference_count pts R =
      if baseline_points_spec pts R = [] then 0
      else ((baseline_points_spec pts R).map (·.count)).sum /
        ((baseline_points_spec pts R).length : ℚ) := by
  have hperm := reference_counts_perm pts R hnd
  unfold reference_count
  by_cases hspec : baseline_points_spec pts R = []
  · rw [if_pos hspec]
    have h0 : reference_counts pts R = [] := by
      have hlen := hperm.length_eq
      rw [hspec] at hlen
      simp only [List.map_nil, List.length_nil] at hlen
      exact List.eq_nil_of_length_eq_zero hlen
    rw [if_pos h0]
  · have hne2 : reference_counts pts R ≠ [] := by
      intro h0
      apply hspec
      have hlen := hperm.length_eq
      rw [h0] at hlen
      simp only [List.length_nil, List.length_map] at hlen
      exact List.eq_nil_of_length_eq_zero hlen.symm
    rw [if_neg hspec, if_neg hne2, hperm.sum_eq, hperm.length_eq, List.length_map]

/-- Witness for C2 at the concrete series: the four offsets match and the
baseline equals their mean. -/
theorem baseline_is_mean_of_matched_witness :
    reference_count exSeries 0 =
      if baseline_points_spec exSeries 0 = [] then 0
      else ((baseline_points_spec exSeries 0).map (·.count)).sum /
        ((baseline_points_spec exSeries 0).length : ℚ) :=
  baseline_is_mean_of_matched exSeries 0 (by decide)

/-- C5 counterexample: in the scenario with work A, original elements [A] and
trend words [A, X], the loop schedules four analyses, not three: each trend
word gets an isolated run, including the word A already in the original
query. -/
theorem scenario_four_tasks_counterexample :
    (plan_for_work exTrendData exOriginals exWorkA).length = 4 ∧
    (plan_for_work exTrendData exOriginals exWorkA).length ≠ 3 := by
  decide

theorem orderedInsert_swap {α : Type} (r : α → α → Prop) [DecidableRel r]
    [IsTotal α r] [IsTrans α r] (a y : α) (hay : ¬ r a y) :
    ∀ b : List α,
    (b.orderedInsert r a).orderedInsert r y = (b.orderedInsert r y).orderedInsert r a := by
  have hya : r y a := (total_of r a y).resolve_left hay
  intro b
  induction b with
  | nil =>
    simp only [List.orderedInsert]
    rw [if_pos hya, if_neg hay]
  | cons z b ih =>
    by_cases haz : r a z
    · have hyz : r y z := trans_of r hya haz
      simp only [List.orderedInsert]
      rw [if_pos haz, if_pos hyz]
      simp only [List.orderedInsert]
      rw [if_pos hya, if_neg hay, if_pos haz]
    · by_cases hyz : r y z
      · simp only [List.orderedInsert]
        rw [if_neg haz, if_pos hyz]
        simp only [List.orderedInsert]
        rw [if_pos hyz, if_neg hay, if_neg haz]
      · simp only [List.orderedInsert]
        rw [if_neg haz, if_neg hyz]
        simp only [List.orderedInsert]
        rw [if_neg hyz, if_neg haz]
        rw [ih]

theorem insertionSort_orderedInsert_append {α : Type} (r : α → α → Prop)
    [DecidableRel r] [IsTotal α r] [IsTrans α r] (a : α) :
    ∀ (S m : List α),
    List.insertionSort r (S.orderedInsert r a ++ m) =
      (List.insertionSort r (S ++ m)).orderedInsert r a := by
  intro S
  induction S with
  | nil => intro m; rfl
  | cons z S ih =>
    intro m
    by_cases haz : r a z
    · simp only [List.orderedInsert]
      rw [if_pos haz]
      rfl
    · simp only [List.orderedInsert]
      rw [if_neg haz]
      show (List.insertionSort r (z :: (S.orderedInsert r a ++ m))) = _
      simp only [List.insertionSort]
      rw [ih]
      show _ = (List.insertionSort r (z :: (S ++ m))).orderedInsert r a
      simp only [List.insertionSort]
      exact orderedInsert_swap r a z haz (List.insertionSort r (S ++ m))

theorem insertionSort_insertionSort_append {α : Type} (r : α → α → Prop)
    [DecidableRel r] [IsTotal α r] [IsTrans α r] :
    ∀ (l m : List α),
    List.insertionSort r (List.insertionSort r l ++ m) = List.insertionSort r (l ++ m) := by
  intro l
  induction l with
  | nil => intro m; rfl
  | cons a t ih =>
    intro m
    show List.insertionSort r ((List.insertionSort r t).orderedInsert r a ++ m) = _
    rw [insertionSort_orderedInsert_append, ih]
    rfl

theorem orderedInsert_eq_cons {α : Type} (r : α → α → Prop) [DecidableRel r]
    (a : α) (m : List α) (h : ∀ w ∈ m, r a w) : m.orderedInsert r a = a :: m := by
  cases m with
  | nil => rfl
  | cons w rest =>
    simp only [List.orderedInsert]
    rw [if_pos (h w (List.mem_cons_self w rest))]

theorem filter_orderedInsert {α : Type} (r : α → α → Prop) [DecidableRel r]
    [IsTrans α r] (p : α → Bool) (a : α) :
    ∀ l : List α, List.Sorted r l →
    (l.orderedInsert r a).filter p =
      if p a then (l.filter p).orderedInsert r a else l.filter p := by
  intro l
  induction l with
  | nil =>
    intro _
    by_cases hpa : p a
    · rw [if_pos hpa]
      simp [List.orderedInsert, List.filter_cons, hpa]
    · rw [if_neg hpa]
      simp [List.orderedInsert, List.filter_cons, hpa]
  | cons z l ih =>
    intro hs
    have hz := List.rel_of_sorted_cons hs
    have ihs := ih hs.of_cons
    by_cases haz : r a z
    · simp only [List.orderedInsert]
      rw [if_pos haz]
      by_cases hpa : p a
      · rw [if_pos hpa, List.filter_cons_of_pos hpa]
        rw [orderedInsert_eq_cons r a (List.filter p (z :: l))]
        intro w hw
        rcases List.mem_cons.mp (List.mem_of_mem_filter hw) with rfl | hwl
        · exact haz
        · exact trans_of r haz (hz w hwl)
      · rw [if_neg hpa, List.filter_cons_of_neg hpa]
    · simp only [List.orderedInsert]
      rw [if_neg haz]
      by_cases hpz : p z
      · rw [List.filter_cons_of_pos hpz, List.filter_cons_of_pos hpz, ihs]
        by_cases hpa : p a
        · rw [if_pos hpa, if_pos hpa]
          simp only [List.orderedInsert]
          rw [if_neg haz]
        · rw [if_neg hpa, if_neg hpa]
      · rw [List.filter_cons_of_neg hpz, List.filter_cons_of_neg hpz, ihs]

theorem filter_insertionSort {α : Type} (r : α → α → Prop) [DecidableRel r]
    [IsTotal α r] [IsTrans α r] (p : α → Bool) :
    ∀ l : List α,
    (List.insertionSort r l).filter p = List.insertionSort r (l.filter p) := by
  intro l
  induction l with
  | nil => rfl
  | cons a t ih =>
    show ((List.insertionSort r t).orderedInsert r a).filter p = _
    rw [filter_orderedInsert r p a _ (List.sorted_insertionSort r t), ih]
    by_cases hpa : p a
    · rw [if_pos hpa, List.filter_cons_of_pos hpa]
      rfl
    · rw [if_neg hpa, List.filter_cons_of_neg hpa]

theorem upsert_filter_not_new {α κ : Type} [DecidableEq κ] (key : α → κ)
    (r : α → α → Prop) [DecidableRel r] [IsTotal α r] [IsTrans α r]
    (newRows existing : List α) :
    (upsert key r newRows existing).filter (fun x => decide (key x ∉ newRows.map key)) =
      List.insertionSort r (existing.filter fun x => decide (key x ∉ newRows.map key)) := by
  unfold upsert
  rw [filter_insertionSort]
  congr 1
  rw [List.filter_append]
  have h1 : ((existing.filter fun x => decide (key x ∉ newRows.map key)).filter
      fun x => decide (key x ∉ newRows.map key)) =
      existing.filter fun x => decide (key x ∉ newRows.map key) := by
    rw [List.filter_filter]
    apply List.filter_congr
    intro x hx
    rw [Bool.and_self]
  have h2 : (newRows.filter fun x => decide (key x ∉ newRows.map key)) = [] :=
    List.filter_eq_nil_iff.mpr fun x hx => by
      simpa using List.mem_map_of_mem key hx
  rw [h1, h2, List.append_nil]

theorem upsert_idem {α κ : Type} [DecidableEq κ] (key : α → κ)
    (r : α → α → Prop) [DecidableRel r] [IsTotal α r] [IsTrans α r]
    (newRows existing : List α) :
    upsert key r newRows (upsert key r newRows existing) =
      upsert key r newRows existing := by
  conv_lhs => rw [upsert]
  rw [upsert_filter_not_new key r newRows existing, insertionSort_insertionSort_append]
  rfl

theorem mem_upsert_of_not_colliding {α κ : Type} [DecidableEq κ] (key : α → κ)
    (r : α → α → Prop) [DecidableRel r] (x : α) (newRows existing : List α)
    (hx : x ∈ existing) (hk : key x ∉ newRows.map key) :
    x ∈ upsert key r newRows existing := by
  unfold upsert
  rw [List.mem_insertionSort]
  apply List.mem_append_left
  rw [List.mem_filter]
  exact ⟨hx, decide_eq_true hk⟩

/-- C3: saving the same completed result list twice, with the same issue
number and trend metadata, leaves both persisted tables identical to the
state after saving it once. -/
theorem save_idempotent (results : List AnalysisRecord) (issue : Int)
    (tds : List TrendDatum) (s : Store) :
    save_analysis_to_csv results issue tds (save_analysis_to_csv results issue tds s) =
      save_analysis_to_csv results issue tds s := by
  unfold save_analysis_to_csv
  by_cases hc : tds ≠ [] ∧ trend_rows results issue tds ≠ []
  · rw [if_pos hc, if_pos hc]
    simp only [Store.mk.injEq]
    exact ⟨upsert_idem workKey workLE _ _, upsert_idem trendKey trendLE _ _⟩
  · rw [if_neg hc, if_neg hc]
    simp only [Store.mk.injEq]
    exact ⟨upsert_idem workKey workLE _ _, trivial⟩

/-- C8: a save keeps every existing persisted row whose composite key matches
no new row, unmodified, in each rewritten table. -/
theorem save_preserves_noncolliding (results : List AnalysisRecord) (issue : Int)
    (tds : List TrendDatum) (s : Store) :
    (∀ row ∈ s.workTable, workKey row ∉ (work_rows results issue).map workKey →
      row ∈ (save_analysis_to_csv results issue tds s).workTable) ∧
    (∀ row ∈ s.trendTable, trendKey row ∉ (trend_rows results issue tds).map trendKey →
      row ∈ (save_analysis_to_csv results issue tds s).trendTable) := by
  unfold save_analysis_to_csv
  by_cases hc : tds ≠ [] ∧ trend_rows results issue tds ≠ []
  · rw [if_pos hc]
    exact ⟨fun row hr hk => mem_upsert_of_not_colliding workKey workLE row _ _ hr hk,
      fun row hr hk => mem_upsert_of_not_colliding trendKey trendLE row _ _ hr hk⟩
  · rw [if_neg hc]
    exact ⟨fun row hr hk => mem_upsert_of_not_colliding workKey workLE row _ _ hr hk,
      fun row hr _ => hr⟩

/-- Witness for C8: both historical rows of the concrete store survive a save
of the concrete completed results under issue 2. -/
theorem save_preserves_noncolliding_witness :
    exOldRow ∈ (save_analysis_to_csv [exRecord, exIndivRecord] 2 exTrendData exStore).workTable ∧
    exOldTrendRow ∈
      (save_analysis_to_csv [exRecord, exIndivRecord] 2 exTrendData exStore).trendTable := by
  have h := save_preserves_noncolliding [exRecord, exIndivRecord] 2 exTrendData exStore
  exact ⟨h.1 exOldRow (by decide) (by decide), h.2 exOldTrendRow (by decide) (by decide)⟩

/-- C5 amended: the scenario schedules exactly four tasks: the plain original
query untagged, the combined base query tagged with the one new trend word X,
and one isolated analysis per supplied trend word (both A and X), each tagged
as an individual trend run. -/
theorem scenario_plan_amended :
    plan_for_work exTrendData exOriginals exWorkA =
      [{ name := "A", query := "A" },
       { name := "A", query := "(A X)", withTrendWord := true, trendWords := ["X"] },
       { name := "A", query := "A", withTrendWord := true, trendWords := ["A"],
         isTrendIndividual := true },
       { name := "A", query := "X", withTrendWord := true, trendWords := ["X"],
         isTrendIndividual := true }] := by
  decide

end JumpData
